import Mathlib

/-!
Verification of `run/solidificationTest/read_thermocalc.py`.

The script is a single linear pipeline over a temperature-indexed table.
We embed each numbered section of the script as a Lean function:

* numeric cells are rationals (`ℚ`), a missing cell (NaN after
  `np.genfromtxt`) is `none : Option ℚ`;
* Python strings are lists of characters (`List Char`);
* code that can raise an uncaught Python exception is embedded in
  `Except PyErr`, with one constructor per exception class that can
  actually occur.

The temperature cell of a row is modelled as always present (the analysed
tables carry a numeric temperature in every row); the remaining cells of a
row keep their `Option` type.
-/

/-- Python exception classes that the script can raise (uncaught). -/
inductive PyErr where
  | indexError
  | keyError
  | valueError
  | zeroDivisionError
deriving DecidableEq, Repr

deriving instance DecidableEq for Except

/-- One element's data for the freezing-range loop (section `### 8` of the
script): concentrations `CL = C['LIQUID'][elem]`, `CS = C[phase][elem]` and
path slopes `mL = slopes['LIQUID'][elem]`, `mS = slopes[phase][elem]`. -/
structure ElemEntry where (CL : ℚ) (CS : ℚ) (mL : ℚ) (mS : ℚ)
deriving DecidableEq, Repr

/-- `sumL += (CS - CL)/mL` accumulated over elements (line 170). -/
def sumLOf (es : List ElemEntry) : ℚ :=
  es.foldl (fun acc e => acc + (e.CS - e.CL) / e.mL) 0

/-- `sumS += (CS - CL)/mS` accumulated over elements (line 171). -/
def sumSOf (es : List ElemEntry) : ℚ :=
  es.foldl (fun acc e => acc + (e.CS - e.CL) / e.mS) 0

/-- `DeltaT1 += (CS - CL)**2/sumS` accumulated over elements (lines 176-177). -/
def deltaT1Of (es : List ElemEntry) : ℚ :=
  es.foldl (fun acc e => acc + (e.CS - e.CL) ^ 2 / sumSOf es) 0

/-- `DeltaT2 += CL*(CS - CL)*(1/sumL - 1/sumS)` accumulated over elements
(lines 176-177). -/
def deltaT2Of (es : List ElemEntry) : ℚ :=
  es.foldl (fun acc e => acc + e.CL * (e.CS - e.CL) * (1 / sumLOf es - 1 / sumSOf es)) 0

/-- The per-phase freezing-range result `(K, DeltaT1, DeltaT2)` printed on
line 182: `K = sumL/sumS`. -/
def freezingCore (es : List ElemEntry) : ℚ × ℚ × ℚ :=
  (sumLOf es / sumSOf es, deltaT1Of es, deltaT2Of es)

/-- The four lookups `slopes['LIQUID'][elem], slopes[phase][elem]` and
`C['LIQUID'][elem], C[phase][elem]` of lines 168-169 / 174-175 for one
element: `none` when any of the keys is absent. -/
def lookup4 (slopesL CsL slopesS CsS : List (String × ℚ)) (e : String) :
    Option ElemEntry :=
  match slopesL.lookup e, slopesS.lookup e, CsL.lookup e, CsS.lookup e with
  | some mL, some mS, some cL, some cS => some (ElemEntry.mk cL cS mL mS)
  | _, _, _, _ => none

/-- The lookups of lines 168-169 / 174-175 performed for each element of
`elements` in order; the first absent key raises `KeyError`. -/
def collectEntries (elements : List String)
    (slopesL CsL slopesS CsS : List (String × ℚ)) : Except PyErr (List ElemEntry) :=
  match elements with
  | [] => Except.ok []
  | e :: rest =>
    match lookup4 slopesL CsL slopesS CsS e with
    | none => Except.error PyErr.keyError
    | some ent =>
      match collectEntries rest slopesL CsL slopesS CsS with
      | Except.ok l => Except.ok (ent :: l)
      | Except.error err => Except.error err

/-- Section `### 8` for one non-liquid phase: look every element up in the
four dicts (`KeyError` on a missing entry), then compute `(K, ΔT1, ΔT2)`.
With zero elements `sumL` and `sumS` stay the Python ints `0`, so the final
`print` evaluates `0/0` and raises `ZeroDivisionError`. -/
def freezingRange (elements : List String)
    (slopesL CsL slopesS CsS : List (String × ℚ)) : Except PyErr (ℚ × ℚ × ℚ) :=
  match collectEntries elements slopesL CsL slopesS CsS with
  | Except.error err => Except.error err
  | Except.ok [] => Except.error PyErr.zeroDivisionError
  | Except.ok es => Except.ok (freezingCore es)

lemma foldl_add_eq_sum {α : Type} (f : α → ℚ) :
    ∀ (l : List α) (a : ℚ), l.foldl (fun acc x => acc + f x) a = a + (l.map f).sum := by
  intro l
  induction l with
  | nil => intro a; simp
  | cons x xs ih =>
    intro a
    simp only [List.foldl_cons, List.map_cons, List.sum_cons]
    rw [ih]
    ring

lemma sumLOf_eq_sum (es : List ElemEntry) :
    sumLOf es = (es.map (fun e => (e.CS - e.CL) / e.mL)).sum := by
  unfold sumLOf; rw [foldl_add_eq_sum]; ring

lemma sumSOf_eq_sum (es : List ElemEntry) :
    sumSOf es = (es.map (fun e => (e.CS - e.CL) / e.mS)).sum := by
  unfold sumSOf; rw [foldl_add_eq_sum]; ring

lemma deltaT1Of_eq_sum (es : List ElemEntry) :
    deltaT1Of es = (es.map (fun e => (e.CS - e.CL) ^ 2 / sumSOf es)).sum := by
  unfold deltaT1Of; rw [foldl_add_eq_sum]; ring

lemma deltaT2Of_eq_sum (es : List ElemEntry) :
    deltaT2Of es
      = (es.map (fun e => e.CL * (e.CS - e.CL) * (1 / sumLOf es - 1 / sumSOf es))).sum := by
  unfold deltaT2Of; rw [foldl_add_eq_sum]; ring

/-- C1: for a non-liquid phase the script accumulates
`sumL = Σ (CS−CL)/mL` and `sumS = Σ (CS−CL)/mS` over elements, reports
`K = sumL/sumS`, `ΔT1 = Σ (CS−CL)²/sumS` and
`ΔT2 = Σ CL·(CS−CL)·(1/sumL − 1/sumS)`; and on the single element with
`CL = 0.02`, `CS = 0.05`, `mL = 10`, `mS = −5` it yields `K = −0.5`,
`ΔT1 = −0.15`, `ΔT2 = 0.3`. -/
theorem c1_freezing_range_formulas :
    (∀ es : List ElemEntry,
      freezingCore es
        = ((es.map (fun e => (e.CS - e.CL) / e.mL)).sum
              / (es.map (fun e => (e.CS - e.CL) / e.mS)).sum,
           (es.map (fun e =>
              (e.CS - e.CL) ^ 2 / (es.map (fun x => (x.CS - x.CL) / x.mS)).sum)).sum,
           (es.map (fun e =>
              e.CL * (e.CS - e.CL)
                * (1 / (es.map (fun x => (x.CS - x.CL) / x.mL)).sum
                    - 1 / (es.map (fun x => (x.CS - x.CL) / x.mS)).sum))).sum))
    ∧ freezingRange ["X"] [("X", 10)] [("X", 1/50)] [("X", -5)] [("X", 1/20)]
        = Except.ok (-(1/2), -(3/20), 3/10) := by
  constructor
  · intro es
    unfold freezingCore
    rw [deltaT1Of_eq_sum, deltaT2Of_eq_sum, sumLOf_eq_sum, sumSOf_eq_sum]
  · norm_num [freezingRange, collectEntries, lookup4, freezingCore,
      sumLOf, sumSOf, deltaT1Of, deltaT2Of]

lemma lookup4_isSome_iff (slopesL CsL slopesS CsS : List (String × ℚ)) (e : String) :
    (lookup4 slopesL CsL slopesS CsS e).isSome = true
      ↔ (slopesL.lookup e).isSome = true ∧ (slopesS.lookup e).isSome = true
          ∧ (CsL.lookup e).isSome = true ∧ (CsS.lookup e).isSome = true := by
  unfold lookup4
  cases slopesL.lookup e <;> cases slopesS.lookup e <;> cases CsL.lookup e
    <;> cases CsS.lookup e <;> simp

lemma collectEntries_ok_iff (elements : List String)
    (slopesL CsL slopesS CsS : List (String × ℚ)) :
    (∃ es, collectEntries elements slopesL CsL slopesS CsS = Except.ok es)
      ↔ ∀ e ∈ elements, (lookup4 slopesL CsL slopesS CsS e).isSome = true := by
  induction elements with
  | nil => simp [collectEntries]
  | cons e rest ih =>
    constructor
    · rintro ⟨es, hes⟩
      unfold collectEntries at hes
      cases h1 : lookup4 slopesL CsL slopesS CsS e with
      | none => rw [h1] at hes; exact absurd hes (by simp)
      | some ent =>
        rw [h1] at hes
        cases h5 : collectEntries rest slopesL CsL slopesS CsS with
        | error err => rw [h5] at hes; exact absurd hes (by simp)
        | ok l =>
          intro x hx
          rcases List.mem_cons.mp hx with hx | hx
          · subst hx; simp [h1]
          · exact (ih.mp ⟨_, h5⟩) x hx
    · intro hall
      obtain ⟨ent, h1⟩ := Option.isSome_iff_exists.mp (hall e (List.mem_cons_self e rest))
      obtain ⟨es, h5⟩ := ih.mpr (fun x hx => hall x (List.mem_cons_of_mem e hx))
      exact ⟨_, by unfold collectEntries; rw [h1, h5]⟩

lemma collectEntries_length (elements : List String)
    (slopesL CsL slopesS CsS : List (String × ℚ)) (es : List ElemEntry)
    (h : collectEntries elements slopesL CsL slopesS CsS = Except.ok es) :
    es.length = elements.length := by
  induction elements generalizing es with
  | nil => unfold collectEntries at h; cases h; rfl
  | cons e rest ih =>
    unfold collectEntries at h
    cases h1 : lookup4 slopesL CsL slopesS CsS e with
    | none => rw [h1] at h; exact absurd h (by simp)
    | some ent =>
      rw [h1] at h
      cases h5 : collectEntries rest slopesL CsL slopesS CsS with
      | error err => rw [h5] at h; exact absurd h (by simp)
      | ok l =>
        rw [h5] at h
        simp only [Except.ok.injEq] at h
        subst h
        simp [ih _ h5]

/-- C7 (amended): in the freezing-range loop, an element lacking a
concentration/slope entry for either the LIQUID phase or the current phase
makes the run abort with a `KeyError` (the entry is not silently excluded);
the computation succeeds exactly when the element list is nonempty and every
element has all four entries.  (With zero elements the script does abort — by
`ZeroDivisionError` at `sumL/sumS` — rather than reporting `K = 0/0`.) -/
theorem c7_missing_entry_aborts (elements : List String)
    (slopesL CsL slopesS CsS : List (String × ℚ)) :
    (freezingRange elements slopesL CsL slopesS CsS).isOk = true
      ↔ elements ≠ []
          ∧ ∀ e ∈ elements,
              (slopesL.lookup e).isSome = true ∧ (slopesS.lookup e).isSome = true
                ∧ (CsL.lookup e).isSome = true ∧ (CsS.lookup e).isSome = true := by
  unfold freezingRange
  constructor
  · intro hok
    cases h : collectEntries elements slopesL CsL slopesS CsS <;> rw [h] at hok
    · cases hok
    · rename_i es
      cases es with
      | nil =>
        cases hok
      | cons x xs =>
        refine ⟨?_, fun e he => (lookup4_isSome_iff _ _ _ _ e).mp
          (((collectEntries_ok_iff _ _ _ _ _).mp ⟨_, h⟩) e he)⟩
        intro hnil
        subst hnil
        unfold collectEntries at h
        cases h
  · rintro ⟨hne, hall⟩
    obtain ⟨es, h⟩ := (collectEntries_ok_iff elements slopesL CsL slopesS CsS).mpr
      (fun e he => (lookup4_isSome_iff _ _ _ _ e).mpr (hall e he))
    rw [h]
    cases es with
    | nil =>
      have := collectEntries_length _ _ _ _ _ _ h
      cases elements with
      | nil => exact absurd rfl hne
      | cons a l => simp at this
    | cons x xs => rfl

/-- C7 counterexample: with elements `Cr` and `Ni` where only `Cr` has
entries, the script raises `KeyError` instead of silently excluding `Ni`;
had `Ni` been excluded (element list reduced to `Cr`), the computation would
have succeeded. -/
theorem c7_counterexample :
    freezingRange ["Cr", "Ni"] [("Cr", 10)] [("Cr", 1/50)] [("Cr", -5)] [("Cr", 1/20)]
        = Except.error PyErr.keyError
    ∧ freezingRange ["Cr"] [("Cr", 10)] [("Cr", 1/50)] [("Cr", -5)] [("Cr", 1/20)]
        = Except.ok (-(1/2), -(3/20), 3/10) := by
  constructor
  · decide
  · norm_num [freezingRange, collectEntries, lookup4, freezingCore,
      sumLOf, sumSOf, deltaT1Of, deltaT2Of]

/-- Witness for `c7_missing_entry_aborts`: concrete success case. -/
theorem c7_missing_entry_aborts_witness :
    (freezingRange ["Cr"] [("Cr", 10)] [("Cr", 1/50)] [("Cr", -5)] [("Cr", 1/20)]).isOk
      = true :=
  (c7_missing_entry_aborts ["Cr"] [("Cr", 10)] [("Cr", 1/50)] [("Cr", -5)]
    [("Cr", 1/20)]).mpr ⟨by decide, by decide⟩

/-- Nickel-equivalent coefficients of section `### 9` (line 187). -/
noncomputable def NiCoeffs : List (String × ℝ) :=
  [("Ni", 1), ("Mn", 1/2), ("C", 30), ("N", 30)]

/-- Chromium-equivalent coefficients of section `### 9` (line 188). -/
noncomputable def CrCoeffs : List (String × ℝ) :=
  [("Cr", 1), ("Mo", 3/2), ("Si", 3/2), ("Nb", 1/2)]

/-- `Ni_eq` accumulated over `C['LIQUID'].items()` (lines 189-192): elements
absent from the coefficient table contribute nothing. -/
noncomputable def NiEq (liquidC : List (String × ℝ)) : ℝ :=
  liquidC.foldl
    (fun acc p =>
      match NiCoeffs.lookup p.1 with
      | some k => acc + p.2 * k
      | none => acc) 0

/-- `Cr_eq` accumulated over `C['LIQUID'].items()` (lines 189-194). -/
noncomputable def CrEq (liquidC : List (String × ℝ)) : ℝ :=
  liquidC.foldl
    (fun acc p =>
      match CrCoeffs.lookup p.1 with
      | some k => acc + p.2 * k
      | none => acc) 0

/-- `bcc_dist` of line 196 with `a = 7`, `b = 10`:
`(14 + b/a*(x - 19) - y)*a/np.sqrt(a**2 + b**2)`. -/
noncomputable def bccDist (x y : ℝ) : ℝ :=
  (14 + 10 / 7 * (x - 19) - y) * 7 / Real.sqrt (7 ^ 2 + 10 ^ 2)

/-- `ten_pct_dist = bcc_dist(21, 12)` (line 197). -/
noncomputable def tenPctDist : ℝ := bccDist 21 12

/-- `bcc_wt = 10/ten_pct_dist*bcc_dist(Cr_eq*100, Ni_eq*100)` (line 198). -/
noncomputable def bccWt (crEq niEq : ℝ) : ℝ :=
  10 / tenPctDist * bccDist (crEq * 100) (niEq * 100)

lemma tenPctDist_ne_zero : tenPctDist ≠ 0 := by
  unfold tenPctDist bccDist
  apply div_ne_zero
  · norm_num
  · exact ne_of_gt (Real.sqrt_pos.mpr (by norm_num))

/-- C8 (confirmed): with base element iron, the secondary-phase estimate is
`bcc_wt = 10 · dist(100·Cr_eq, 100·Ni_eq) / dist(21, 12)` with
`dist(x, y) = (14 + (10/7)(x−19) − y)·7/√(7²+10²)`, and any liquid
composition whose equivalents are `Cr_eq = 0.21`, `Ni_eq = 0.12` yields
`bcc_wt = 10` exactly. -/
theorem c8_schaeffler_estimate :
    (∀ crEq niEq : ℝ, bccWt crEq niEq = 10 * bccDist (100 * crEq) (100 * niEq) / tenPctDist)
    ∧ ∀ liquidC : List (String × ℝ),
        CrEq liquidC = 21 / 100 → NiEq liquidC = 12 / 100 →
          bccWt (CrEq liquidC) (NiEq liquidC) = 10 := by
  constructor
  · intro crEq niEq
    unfold bccWt
    rw [mul_comm crEq 100, mul_comm niEq 100]
    ring
  · intro liquidC hcr hni
    rw [hcr, hni]
    unfold bccWt
    have h1 : (21 / 100 * 100 : ℝ) = 21 := by norm_num
    have h2 : (12 / 100 * 100 : ℝ) = 12 := by norm_num
    rw [h1, h2]
    have h3 : bccDist 21 12 = tenPctDist := rfl
    rw [h3, div_mul_cancel₀ _ tenPctDist_ne_zero]

/-- Witness for `c8_schaeffler_estimate`: the composition
`{Cr ↦ 0.21, Ni ↦ 0.12}` has equivalents `Cr_eq = 0.21`, `Ni_eq = 0.12` and
the estimate evaluates to exactly 10 there. -/
theorem c8_schaeffler_estimate_witness :
    CrEq [("Cr", 21/100), ("Ni", 12/100)] = 21 / 100
      ∧ NiEq [("Cr", 21/100), ("Ni", 12/100)] = 12 / 100
      ∧ bccWt (CrEq [("Cr", 21/100), ("Ni", 12/100)])
          (NiEq [("Cr", 21/100), ("Ni", 12/100)]) = 10 := by
  have lc1 : List.lookup "Cr" CrCoeffs = some 1 := rfl
  have lc2 : List.lookup "Ni" CrCoeffs = none := rfl
  have ln1 : List.lookup "Cr" NiCoeffs = none := rfl
  have ln2 : List.lookup "Ni" NiCoeffs = some 1 := rfl
  have hcr : CrEq [("Cr", 21/100), ("Ni", 12/100)] = 21 / 100 := by
    simp only [CrEq, List.foldl, lc1, lc2]
    norm_num
  have hni : NiEq [("Cr", 21/100), ("Ni", 12/100)] = 12 / 100 := by
    simp only [NiEq, List.foldl, ln1, ln2]
    norm_num
  exact ⟨hcr, hni, c8_schaeffler_estimate.2 _ hcr hni⟩

/-- Number of rows in the filtered window where the phase's normalization
sum is positive: `np.count_nonzero(mask)` for the mask `sums[phase] > 0` of
line 133. -/
def validRows (phaseSums : List ℚ) : ℕ :=
  phaseSums.countP (fun s => decide (0 < s))

/-- The guard of line 134: the (element, phase) pair is processed — the
spline fit of line 136 is attempted and `slopes`/`C` entries recorded — iff
`np.count_nonzero(mask) > 0`. -/
def pairAttempted (phaseSums : List ℚ) : Bool :=
  decide (0 < validRows phaseSums)

/-- C6 counterexample: a phase-sum column with exactly one positive entry has
fewer than 2 valid rows, yet the pair is not skipped — the guard
`np.count_nonzero(mask) > 0` holds and the spline fit is attempted. -/
theorem c6_counterexample :
    validRows [(1 : ℚ)] = 1 ∧ validRows [(1 : ℚ)] < 2
      ∧ pairAttempted [(1 : ℚ)] = true := by
  refine ⟨?_, ?_, ?_⟩ <;> decide

/-- C6 (amended): an (element, phase) pair is skipped — and no
concentration/slope entry produced — exactly when zero rows with positive
phase sum remain; with one or more valid rows the spline fit is attempted
(a single valid row then violates the spline library's requirement of more
than `k = 1` data points and aborts the run, rather than being skipped). -/
theorem c6_pair_skip_guard (phaseSums : List ℚ) :
    pairAttempted phaseSums = false ↔ validRows phaseSums = 0 := by
  simp [pairAttempted]

/-- Python strings are embedded as their character lists. -/
abbrev Str := List Char

/-- The constant prefix of the `Regex.masspct` header pattern
`Mass percent of (\w+) in ([\w#]+)`. -/
def masspctMarker : Str := "Mass percent of ".toList

/-- The constant prefix of the `Regex.gram` header pattern
`Amount of (\w+) in ([\w#]+) \[g\]`. -/
def gramMarker : Str := "Amount of ".toList

/-- The constant suffix of the `Regex.gram` header pattern. -/
def gramEnding : Str := " [g]".toList

/-- The literal ` in ` separating the element and phase capture groups. -/
def sepIn : Str := " in ".toList

/-- A regex `\w` character: letters, digits, underscore. -/
def isWordChar (c : Char) : Bool := c.isAlphanum || c == '_'

/-- A character of the `[\w#]+` phase-name capture group. -/
def isPhaseChar (c : Char) : Bool := isWordChar c || c == '#'

/-- Split a string at the first occurrence of `sep`: pieces before and after. -/
def splitFirst (sep : Str) : Str → Option (Str × Str)
  | [] => none
  | c :: rest =>
    if sep.isPrefixOf (c :: rest) then some ([], (c :: rest).drop sep.length)
    else
      match splitFirst sep rest with
      | some (a, b) => some (c :: a, b)
      | none => none

/-- Drop the last `n` characters. -/
def dropEnd (n : ℕ) (s : Str) : Str := s.take (s.length - n)

/-- `Regex.masspct.findall(c)` then `res[0]` (lines 29, 34-35), for headers of
the documented shape `Mass percent of <E> in <P>`: capture the element and
phase tokens and check they consist of word (resp. word-or-`#`) characters. -/
def parseMasspct (h : Str) : Option (Str × Str) :=
  if masspctMarker.isPrefixOf h then
    match splitFirst sepIn (h.drop masspctMarker.length) with
    | some (e, p) =>
      if !e.isEmpty && e.all isWordChar && !p.isEmpty && p.all isPhaseChar then
        some (e, p)
      else none
    | none => none
  else none

/-- `Regex.gram.findall(c)` then `res[0]` (lines 30, 36-37), for headers of
the documented shape `Amount of <E> in <P> [g]`. -/
def parseGram (h : Str) : Option (Str × Str) :=
  if gramMarker.isPrefixOf h && gramEnding.isSuffixOf h then
    match splitFirst sepIn (dropEnd gramEnding.length (h.drop gramMarker.length)) with
    | some (e, p) =>
      if !e.isEmpty && e.all isWordChar && !p.isEmpty && p.all isPhaseChar then
        some (e, p)
      else none
    | none => none
  else none

/-- `parse_element_content` (lines 33-38): try the mass-percent pattern, then
the gram pattern. -/
def parseElementContent (h : Str) : Option (Str × Str) :=
  match parseMasspct h with
  | some r => some r
  | none => parseGram h

/-- `if not elem in elements: elements.append(elem)` (lines 92-93). -/
def addElem (es : List Str) (e : Str) : List Str :=
  if es.contains e then es else es ++ [e]

/-- The element-list construction of section `### 4` (lines 88-93), projected
to the `elements` list (the `phases` list does not interact with it). -/
def extractElements (columns : List Str) : List Str :=
  columns.foldl
    (fun es c =>
      match parseElementContent c with
      | some r => addElem es r.1
      | none => es) []

/-- `elements.remove(args.base)` (line 97): Python `list.remove` deletes the
first occurrence and raises `ValueError` when the value is absent. -/
def removeBase (columns : List Str) (base : Str) : Except PyErr (List Str) :=
  let es := extractElements columns
  if es.contains base then Except.ok (es.erase base) else Except.error PyErr.valueError

lemma containsStr_iff_mem (l : List Str) (a : Str) :
    l.contains a = true ↔ a ∈ l := by simp

lemma mem_addElem (es : List Str) (e b : Str) :
    b ∈ addElem es e ↔ b ∈ es ∨ b = e := by
  unfold addElem
  by_cases h : es.contains e
  · rw [if_pos h]
    constructor
    · exact Or.inl
    · rintro (hb | hb)
      · exact hb
      · subst hb; exact containsStr_iff_mem _ _ |>.mp h
  · rw [if_neg h]
    simp [List.mem_append]

lemma mem_extractElements_aux (columns : List Str) :
    ∀ (acc : List Str) (b : Str),
      b ∈ columns.foldl
          (fun es c =>
            match parseElementContent c with
            | some r => addElem es r.1
            | none => es) acc
        ↔ b ∈ acc ∨ ∃ c ∈ columns, ∃ r, parseElementContent c = some r ∧ r.1 = b := by
  induction columns with
  | nil => intro acc b; simp
  | cons c cols ih =>
    intro acc b
    rw [List.foldl_cons, ih]
    cases hc : parseElementContent c with
    | none =>
      simp only [List.mem_cons]
      constructor
      · rintro (hb | hb)
        · exact Or.inl hb
        · obtain ⟨x, hx, r, hr, hb⟩ := hb
          exact Or.inr ⟨x, Or.inr hx, r, hr, hb⟩
      · rintro (hb | ⟨x, hx | hx, r, hr, hb⟩)
        · exact Or.inl hb
        · subst hx; rw [hc] at hr; cases hr
        · exact Or.inr ⟨x, hx, r, hr, hb⟩
    | some r0 =>
      rw [mem_addElem]
      simp only [List.mem_cons]
      constructor
      · rintro ((hb | hb) | hb)
        · exact Or.inl hb
        · exact Or.inr ⟨c, Or.inl rfl, r0, hc, hb.symm⟩
        · obtain ⟨x, hx, r, hr, hb⟩ := hb
          exact Or.inr ⟨x, Or.inr hx, r, hr, hb⟩
      · rintro (hb | ⟨x, hx | hx, r, hr, hb⟩)
        · exact Or.inl (Or.inl hb)
        · subst hx; rw [hc] at hr; cases hr; exact Or.inl (Or.inr hb.symm)
        · exact Or.inr ⟨x, hx, r, hr, hb⟩

lemma mem_extractElements (columns : List Str) (b : Str) :
    b ∈ extractElements columns
      ↔ ∃ c ∈ columns, ∃ r, parseElementContent c = some r ∧ r.1 = b := by
  rw [extractElements, mem_extractElements_aux]
  simp

/-- C10 (confirmed): the header must contain at least one element-in-phase
column whose element name equals the configured base element; otherwise
`elements.remove(args.base)` raises `ValueError` at the element-list
construction step, aborting the run before any partition-coefficient or
freezing-range output. -/
theorem c10_base_element_required (columns : List Str) (base : Str) :
    (removeBase columns base).isOk = false
      ↔ ∀ c ∈ columns, ∀ r, parseElementContent c = some r → r.1 ≠ base := by
  unfold removeBase
  by_cases h : (extractElements columns).contains base
  · rw [if_pos h]
    simp only [Except.isOk]
    constructor
    · intro hfalse; cases hfalse
    · intro hall
      obtain ⟨c, hc, r, hr, hb⟩ :=
        (mem_extractElements columns base).mp (containsStr_iff_mem _ _ |>.mp h)
      exact absurd hb (hall c hc r hr)
  · rw [if_neg h]
    simp only [Except.isOk]
    constructor
    · intro _ c hc r hr hb
      exact h (containsStr_iff_mem _ _ |>.mpr
        ((mem_extractElements columns base).mpr ⟨c, hc, r, hr, hb⟩))
    · intro _; rfl

/-- Witness for `c10_base_element_required`: a header with a single `Cr`
column and base element `Fe` makes the run abort at `elements.remove`. -/
theorem c10_base_element_required_witness :
    (removeBase ["Mass percent of Cr in LIQUID".toList] "Fe".toList).isOk = false := by
  apply (c10_base_element_required ["Mass percent of Cr in LIQUID".toList] "Fe".toList).mpr
  intro c hc r hr
  rcases List.mem_singleton.mp hc with rfl
  have hparse : parseElementContent "Mass percent of Cr in LIQUID".toList
      = some ("Cr".toList, "LIQUID".toList) := by decide
  rw [hparse] at hr
  cases hr
  decide

/-- The constant prefix of the `Regex.temperature` header pattern
`Temperature \[(.*)\]` (line 28). -/
def tempMarker : Str := "Temperature [".toList

/-- The closing bracket ending the temperature-unit capture group. -/
def closeBr : Str := "]".toList

/-- `Regex.temperature.findall(c)` (line 64): the list of captured unit
strings — a singleton holding everything between `Temperature [` and the
final `]` when the header has that shape, else empty. -/
def extractTempUnits (h : Str) : List Str :=
  if tempMarker.isPrefixOf h && closeBr.isSuffixOf h then
    [dropEnd closeBr.length (h.drop tempMarker.length)]
  else []

/-- The unit string `C` tested for on line 65. -/
def unitC : Str := "C".toList

/-- The temperature-conversion pass of section `### 2` (lines 63-66): for
every column whose header matches the temperature pattern, `if 'C' in tunit`
— a membership test in the list of captured unit strings — adds `273.15` to
every temperature. -/
def convertTemps (columns : List Str) (T : List ℚ) : List ℚ :=
  columns.foldl
    (fun Tcur c =>
      if (extractTempUnits c).contains unitC then Tcur.map (· + 27315/100)
      else Tcur) T

/-- C4 counterexample: the header `Temperature [degC]` has a unit string
containing `C`, yet the temperatures are left unchanged — the code's
`'C' in tunit` is a list-membership test against the whole captured unit,
not a substring test. -/
theorem c4_counterexample :
    "degC".toList.contains 'C' = true
    ∧ extractTempUnits "Temperature [degC]".toList = ["degC".toList]
    ∧ convertTemps ["Temperature [degC]".toList] [(1600 : ℚ)] = [(1600 : ℚ)]
    ∧ (1600 : ℚ) ≠ 1600 + 27315/100 := by
  refine ⟨by decide, by decide, rfl, by norm_num⟩

/-- C4 (amended): the conversion applies exactly when the captured unit
string is `C` itself (list membership of `"C"` among the regex captures,
i.e. string equality), in which case every temperature value gets `+273.15`
before downstream use; any other unit — Kelvin or a unit merely containing
the letter `C` — leaves every value unchanged. -/
theorem c4_celsius_conversion :
    (∀ (c : Str) (T : List ℚ),
      convertTemps [c] T
        = if (extractTempUnits c).contains unitC then T.map (· + 27315/100) else T)
    ∧ convertTemps ["Temperature [C]".toList] [(1600 : ℚ)] = [1600 + 27315/100]
    ∧ convertTemps ["Temperature [K]".toList] [(1600 : ℚ)] = [(1600 : ℚ)] := by
  refine ⟨fun c T => ?_, rfl, rfl⟩
  simp [convertTemps]

/-- Index of the first entry satisfying `p`: `np.argwhere(...)[0][0]`. -/
def firstIdxP {α : Type} (p : α → Bool) : List α → Option ℕ
  | [] => none
  | x :: xs => if p x then some 0 else (firstIdxP p xs).map (· + 1)

/-- Index of the last entry satisfying `p`: `np.argwhere(...)[-1][0]`. -/
def lastIdxP {α : Type} (p : α → Bool) : List α → Option ℕ
  | [] => none
  | x :: xs =>
    match lastIdxP p xs with
    | some k => some (k + 1)
    | none => if p x then some 0 else none

lemma firstIdxP_spec {α : Type} (p : α → Bool) :
    ∀ (l : List α) (i : ℕ),
      firstIdxP p l = some i
        ↔ ∃ x, l.get? i = some x ∧ p x = true
            ∧ ∀ j, j < i → ∀ y, l.get? j = some y → p y = false := by
  intro l
  induction l with
  | nil => intro i; simp [firstIdxP]
  | cons a as ih =>
    intro i
    by_cases hp : p a = true
    · simp only [firstIdxP, hp, if_true]
      constructor
      · intro h
        cases h
        exact ⟨a, rfl, hp, fun j hj y _ => absurd hj (Nat.not_lt_zero j)⟩
      · rintro ⟨x, hx, hpx, hmin⟩
        cases i with
        | zero => rfl
        | succ k => exact absurd (hmin 0 (Nat.succ_pos k) a rfl) (by simp [hp])
    · have hp' : p a = false := by revert hp; cases p a <;> simp
      simp only [firstIdxP, hp', if_false, Bool.false_eq_true]
      constructor
      · intro h
        rcases Option.map_eq_some'.mp h with ⟨k, hk, rfl⟩
        obtain ⟨x, hx, hpx, hmin⟩ := (ih k).mp hk
        refine ⟨x, by simpa using hx, hpx, ?_⟩
        intro j hj y hy
        cases j with
        | zero => cases hy; exact hp'
        | succ m => exact hmin m (Nat.lt_of_succ_lt_succ hj) y (by simpa using hy)
      · rintro ⟨x, hx, hpx, hmin⟩
        cases i with
        | zero =>
          cases hx
          exact absurd hpx (by simp [hp'])
        | succ k =>
          have hk : firstIdxP p as = some k :=
            (ih k).mpr ⟨x, by simpa using hx, hpx, fun j hj y hy =>
              hmin (j + 1) (Nat.succ_lt_succ hj) y (by simpa using hy)⟩
          rw [hk]; rfl

lemma lastIdxP_eq_none_iff {α : Type} (p : α → Bool) :
    ∀ l : List α, lastIdxP p l = none ↔ ∀ x ∈ l, p x = false := by
  intro l
  induction l with
  | nil => simp [lastIdxP]
  | cons a as ih =>
    simp only [lastIdxP]
    cases h : lastIdxP p as with
    | some k =>
      simp only []
      constructor
      · intro hcontra; cases hcontra
      · intro hall
        rw [(ih.mpr (fun x hx => hall x (List.mem_cons_of_mem a hx)))] at h
        cases h
    | none =>
      by_cases hp : p a = true
      · simp only [hp, if_true]
        constructor
        · intro hcontra; cases hcontra
        · intro hall; exact absurd (hall a (List.mem_cons_self a as)) (by simp [hp])
      · have hp' : p a = false := by revert hp; cases p a <;> simp
        simp only [hp', if_false, Bool.false_eq_true]
        constructor
        · intro _ x hx
          rcases List.mem_cons.mp hx with rfl | hx
          · exact hp'
          · exact (ih.mp h) x hx
        · intro _; trivial

lemma lastIdxP_spec {α : Type} (p : α → Bool) :
    ∀ (l : List α) (i : ℕ),
      lastIdxP p l = some i
        ↔ ∃ x, l.get? i = some x ∧ p x = true
            ∧ ∀ j, i < j → ∀ y, l.get? j = some y → p y = false := by
  intro l
  induction l with
  | nil => intro i; simp [lastIdxP]
  | cons a as ih =>
    intro i
    simp only [lastIdxP]
    cases h : lastIdxP p as with
    | some k =>
      simp only [Option.some.injEq]
      obtain ⟨x, hx, hpx, hmax⟩ := (ih k).mp h
      constructor
      · rintro rfl
        refine ⟨x, by simpa using hx, hpx, ?_⟩
        intro j hj y hy
        cases j with
        | zero => exact absurd hj (Nat.not_lt_zero _)
        | succ m => exact hmax m (Nat.lt_of_succ_lt_succ hj) y (by simpa using hy)
      · rintro ⟨x', hx', hpx', hmax'⟩
        cases i with
        | zero =>
          have hgt : (0 : ℕ) < k + 1 := Nat.succ_pos k
          have := hmax' (k + 1) hgt x (by simpa using hx)
          exact absurd hpx (by simp [this])
        | succ m =>
          have hm : lastIdxP p as = some m :=
            (ih m).mpr ⟨x', by simpa using hx', hpx', fun j hj y hy =>
              hmax' (j + 1) (Nat.succ_lt_succ hj) y (by simpa using hy)⟩
          rw [h] at hm
          cases hm
          rfl
    | none =>
      have hall : ∀ x ∈ as, p x = false := (lastIdxP_eq_none_iff p as).mp h
      by_cases hp : p a = true
      · simp only [hp, if_true, Option.some.injEq]
        constructor
        · rintro rfl
          refine ⟨a, rfl, hp, ?_⟩
          intro j hj y hy
          cases j with
          | zero => exact absurd hj (Nat.not_lt_zero _)
          | succ m => exact hall y (List.get?_mem (by simpa using hy))
        · rintro ⟨x', hx', hpx', _⟩
          cases i with
          | zero => rfl
          | succ m =>
            have : x' ∈ as := List.get?_mem (by simpa using hx')
            exact absurd hpx' (by simp [hall x' this])
      · have hp' : p a = false := by revert hp; cases p a <;> simp
        simp only [hp', if_false, Bool.false_eq_true]
        constructor
        · intro hcontra; cases hcontra
        · rintro ⟨x', hx', hpx', _⟩
          cases i with
          | zero =>
            cases hx'
            exact absurd hpx' (by simp [hp'])
          | succ m =>
            have : x' ∈ as := List.get?_mem (by simpa using hx')
            exact absurd hpx' (by simp [hall x' this])

lemma firstIdxP_isSome_iff {α : Type} (p : α → Bool) :
    ∀ l : List α, (firstIdxP p l).isSome = true ↔ l.any p = true := by
  intro l
  induction l with
  | nil => simp [firstIdxP]
  | cons a as ih =>
    simp only [firstIdxP, List.any_cons]
    by_cases hp : p a = true
    · simp [hp]
    · have hp' : p a = false := by revert hp; cases p a <;> simp
      simp [hp', ih]

lemma lastIdxP_isSome_iff {α : Type} (p : α → Bool) :
    ∀ l : List α, (lastIdxP p l).isSome = true ↔ l.any p = true := by
  intro l
  induction l with
  | nil => simp [lastIdxP]
  | cons a as ih =>
    simp only [lastIdxP, List.any_cons]
    cases h : lastIdxP p as with
    | some k =>
      have : as.any p = true := (ih).mp (by simp [h])
      simp [this]
    | none =>
      have : as.any p = false := by
        rw [← Bool.not_eq_true]
        intro hcontra
        have h2 := ih.mpr hcontra
        rw [h] at h2
        simp at h2
      by_cases hp : p a = true
      · simp [hp]
      · have hp' : p a = false := by revert hp; cases p a <;> simp
        simp [hp', this]

/-- The solidus/liquidus detection of lines 71-73 over the (temperature,
LIQUID-amount) rows of the deduplicated table:
`sol = T[np.argwhere(np.isnan(col))[-1][0]]` (an empty match list raises
`IndexError`), `liq = T[np.argwhere(col == 1)[0][0]]`, `deltaT = liq - sol`. -/
def selectInterval (rows : List (ℚ × Option ℚ)) : Except PyErr (ℚ × ℚ × ℚ) :=
  match lastIdxP (fun v => v.isNone) (rows.map Prod.snd) with
  | none => Except.error PyErr.indexError
  | some i =>
    match firstIdxP (fun v => decide (v = some 1)) (rows.map Prod.snd) with
    | none => Except.error PyErr.indexError
    | some j =>
      let sol := ((rows.get? i).map Prod.fst).getD 0
      let liq := ((rows.get? j).map Prod.fst).getD 0
      Except.ok (sol, liq, liq - sol)

/-- Lines 71-80 for the LIQUID column: after the solidus/liquidus detection,
the window is overwritten (unless `--manual`) with
`(sol - deltaT*tail, liq + deltaT*tail)` and `T0` (unless supplied) with
`liq - deltaT/1e10`; a still-unset `T0` finally defaults to the window
midpoint.  No check of any kind is made on the sign of `deltaT`. -/
def liquidBranch (manual : Bool) (T0arg : Option ℚ) (Tmin Tmax tail : ℚ)
    (rows : List (ℚ × Option ℚ)) : Except PyErr ((ℚ × ℚ) × ℚ) :=
  match selectInterval rows with
  | Except.error e => Except.error e
  | Except.ok (sol, liq, deltaT) =>
    let winT0 : (ℚ × ℚ) × Option ℚ :=
      if manual then ((Tmin, Tmax), T0arg)
      else ((sol - deltaT * tail, liq + deltaT * tail),
            match T0arg with
            | some t => some t
            | none => some (liq - deltaT / 10000000000))
    let T0final : ℚ :=
      match winT0.2 with
      | some t => t
      | none => (winT0.1.1 + winT0.1.2) / 2
    Except.ok (winT0.1, T0final)

/-- C2 (confirmed): over the deduplicated table the solidus index is the last
row whose liquid amount is missing and the liquidus index is the first row
whose liquid amount equals exactly 1; on the liquid-fraction column
`[NaN, NaN, 0.5, 1, 1]` at `T = [1600, 1650, 1680, 1700, 1750]` this gives
solidus 1650, liquidus 1700 and `ΔT = 50`. -/
theorem c2_solidus_liquidus :
    (∀ (col : List (Option ℚ)) (i : ℕ),
      lastIdxP (fun v => v.isNone) col = some i
        ↔ ∃ x, col.get? i = some x ∧ x.isNone = true
            ∧ ∀ j, i < j → ∀ y, col.get? j = some y → y.isNone = false)
    ∧ (∀ (col : List (Option ℚ)) (j : ℕ),
      firstIdxP (fun v => decide (v = some 1)) col = some j
        ↔ ∃ x, col.get? j = some x ∧ x = some 1
            ∧ ∀ m, m < j → ∀ y, col.get? m = some y → y ≠ some 1)
    ∧ selectInterval
        [(1600, none), (1650, none), (1680, some (1/2)), (1700, some 1), (1750, some 1)]
        = Except.ok (1650, 1700, 50) := by
  refine ⟨fun col i => lastIdxP_spec _ col i, fun col j => ?_, ?_⟩
  · rw [firstIdxP_spec]
    constructor
    · rintro ⟨x, hx, hpx, hmin⟩
      exact ⟨x, hx, by simpa using hpx, fun m hm y hy => by simpa using hmin m hm y hy⟩
    · rintro ⟨x, hx, hpx, hmin⟩
      exact ⟨x, hx, by simpa using hpx, fun m hm y hy => by simpa using hmin m hm y hy⟩
  · have h0 : ((none : Option ℚ) = some 1) = False := by simp
    have h1 : ((some (1/2 : ℚ)) = some 1) = False := by norm_num
    have h2 : ((some (1 : ℚ)) = some 1) = True := by simp
    norm_num [selectInterval, lastIdxP, firstIdxP, h0, h1, h2]

/-- Witness for `c2_solidus_liquidus`: instantiating the solidus
characterization on the scenario-B column certifies that index 1 (row with
`T = 1650`) is the last missing entry. -/
theorem c2_solidus_liquidus_witness :
    ∃ x, ([none, none, some (1/2), some 1, some 1] : List (Option ℚ)).get? 1 = some x
      ∧ x.isNone = true
      ∧ ∀ j, 1 < j → ∀ y,
          ([none, none, some (1/2), some 1, some 1] : List (Option ℚ)).get? j = some y
            → y.isNone = false := by
  apply (c2_solidus_liquidus.1 [none, none, some (1/2), some 1, some 1] 1).mp
  decide

/-- C5 counterexample: a LIQUID column whose first row is fully liquid and
whose last row is missing gives `sol = 1650 > liq = 1600`, i.e.
`ΔT = −50 ≤ 0`, in automatic mode with no `T0` supplied — yet no error of any
kind is raised: the run succeeds and derives a (nonsensical, inverted)
window from the negative interval. -/
theorem c5_counterexample :
    selectInterval [(1600, some 1), (1650, none)] = Except.ok (1650, 1600, -50)
    ∧ liquidBranch false none 1600 1800 (1/2) [(1600, some 1), (1650, none)]
        = Except.ok ((1675, 1575), 1600 + 50 / 10000000000) := by
  have h0 : ((none : Option ℚ) = some 1) = False := by simp
  have h2 : ((some (1 : ℚ)) = some 1) = True := by simp
  constructor
  · norm_num [selectInterval, lastIdxP, firstIdxP, h0, h2]
  · norm_num [liquidBranch, selectInterval, lastIdxP, firstIdxP, h0, h2]

lemma selectInterval_isOk_iff (rows : List (ℚ × Option ℚ)) :
    (selectInterval rows).isOk = true
      ↔ ((rows.map Prod.snd).any (fun v => v.isNone) = true
          ∧ (rows.map Prod.snd).any (fun v => decide (v = some 1)) = true) := by
  unfold selectInterval
  cases hl : lastIdxP (fun v => v.isNone) (rows.map Prod.snd) with
  | none =>
    have hno : ¬ ((rows.map Prod.snd).any (fun v => v.isNone) = true) := by
      intro hany
      have h2 := (lastIdxP_isSome_iff _ _).mpr hany
      rw [hl] at h2
      simp at h2
    constructor
    · intro h; cases h
    · rintro ⟨h1, _⟩; exact absurd h1 hno
  | some i =>
    cases hf : firstIdxP (fun v => decide (v = some 1)) (rows.map Prod.snd) with
    | none =>
      have hno : ¬ ((rows.map Prod.snd).any (fun v => decide (v = some 1)) = true) := by
        intro hany
        have h2 := (firstIdxP_isSome_iff _ _).mpr hany
        rw [hf] at h2
        simp at h2
      constructor
      · intro h; cases h
      · rintro ⟨_, h2⟩; exact absurd h2 hno
    | some j =>
      constructor
      · intro _
        exact ⟨(lastIdxP_isSome_iff _ _).mp (by simp [hl]),
               (firstIdxP_isSome_iff _ _).mp (by simp [hf])⟩
      · intro _; rfl

/-- C5 (amended): when a LIQUID phase-molar-amount column is present, the
interval-selection step aborts — with an uncaught `IndexError`, the script
defining no error class of its own — exactly when one of the two bounds is
missing (no missing liquid value, or no liquid value exactly 1), and it does
so regardless of whether a manual window or `T0` is supplied; a nonpositive
`ΔT = liquidus − solidus` triggers no failure at all: the run continues with
the window derived from the negative interval. -/
theorem c5_interval_abort (manual : Bool) (T0arg : Option ℚ) (Tmin Tmax tail : ℚ)
    (rows : List (ℚ × Option ℚ)) :
    (liquidBranch manual T0arg Tmin Tmax tail rows).isOk = true
      ↔ ((rows.map Prod.snd).any (fun v => v.isNone) = true
          ∧ (rows.map Prod.snd).any (fun v => decide (v = some 1)) = true) := by
  rw [← selectInterval_isOk_iff]
  unfold liquidBranch
  cases hsel : selectInterval rows with
  | error e => exact Iff.rfl
  | ok r =>
    obtain ⟨sol, liq, dT⟩ := r
    exact Iff.rfl

/-- One row of the loaded table: the temperature `data[i,0]` (always a
number in the analysed tables) and the remaining cells, missing entries
being `none`. -/
structure SRow where (temp : ℚ) (rest : List (Option ℚ))
deriving DecidableEq, Repr

instance : Inhabited SRow := ⟨⟨0, []⟩⟩

/-- `np.count_nonzero(~np.isnan(row), axis=1)` for one row: the temperature
cell counts as non-missing. -/
def nonMissing (r : SRow) : ℕ := 1 + r.rest.countP (fun c => c.isSome)

/-- The temperature column `T = data[:,0]` (line 51). -/
def temps (rows : List SRow) : List ℚ := rows.map SRow.temp

/-- `np.argmax`: index of the first maximal entry (line 56); 0 on `[]`. -/
def argmaxIdx : List ℕ → ℕ
  | [] => 0
  | [_] => 0
  | x :: y :: ys =>
    if x < (y :: ys).getD (argmaxIdx (y :: ys)) 0 then argmaxIdx (y :: ys) + 1 else 0

/-- The sorted unique temperature values returned by `np.unique(T)`
(line 54). -/
def sortedVals (T : List ℚ) : List ℚ := List.insertionSort (· ≤ ·) T.dedup

/-- The first-occurrence index `ind[i]` of a value in `T`
(`np.unique(..., return_index=True)`, line 54). -/
def firstOcc (v : ℚ) : List ℚ → ℕ
  | [] => 0
  | t :: ts => if t = v then 0 else firstOcc v ts + 1

/-- The slice `data[ind[i] : ind[i]+cnt[i], :]` examined on line 56 for the
group of value `v`: `cnt[i]` rows starting at the first occurrence of `v`. -/
def groupSlice (rows : List SRow) (v : ℚ) : List SRow :=
  (rows.drop (firstOcc v (temps rows))).take ((temps rows).count v)

/-- The row the script retains for temperature value `v`:
`ind[i] += np.argmax(np.count_nonzero(~np.isnan(data[ind[i]:ind[i]+cnt[i],:]), axis=1))`
(lines 55-57). -/
def pickRow (rows : List SRow) (v : ℚ) : SRow :=
  rows.getD (firstOcc v (temps rows) + argmaxIdx ((groupSlice rows v).map nonMissing))
    default

/-- `data = data[ind]` (line 58): one chosen row per unique temperature
value, listed in ascending order of the value. -/
def dedupTable (rows : List SRow) : List SRow :=
  (sortedVals (temps rows)).map (pickRow rows)

/-- The row the spec describes for a duplicate group: the first row of the
group attaining the maximal non-missing count. -/
def bestOf (g : List SRow) : SRow := g.getD (argmaxIdx (g.map nonMissing)) default

/-- Rows with equal temperatures sit next to each other: every value's
occurrences form one contiguous block. -/
def ContigDups (T : List ℚ) : Prop :=
  ∀ v ∈ T, ∃ pre post, T = pre ++ List.replicate (T.count v) v ++ post

/-- C3 counterexample: in a table whose two `T = 1700` rows are separated by
a `T = 1600` row, the slice `data[ind[i]:ind[i]+cnt[i]]` is not the
duplicate group: the deduplicated table retains no row at all for 1700 (and
keeps the 1600 row twice), refuting the claim for arbitrary input tables. -/
theorem c3_counterexample :
    ((temps [SRow.mk 1700 [none, none], SRow.mk 1600 [some 1, some 2],
        SRow.mk 1700 [some 3, some 4]]).count 1700 = 2)
    ∧ ((dedupTable [SRow.mk 1700 [none, none], SRow.mk 1600 [some 1, some 2],
          SRow.mk 1700 [some 3, some 4]]).filter
            (fun r => decide (r.temp = 1700))).length = 0 := by
  constructor
  · decide
  · decide

/-- C9 counterexample: same non-contiguous duplicate table — after
deduplication the retained temperatures are `[1600, 1600]`, which is not
strictly ascending, refuting the claim for arbitrary (unsorted) inputs. -/
theorem c9_counterexample :
    temps (dedupTable [SRow.mk 1700 [none], SRow.mk 1600 [some 5],
        SRow.mk 1700 [some 7]]) = [1600, 1600]
    ∧ ¬ List.Sorted (fun a b => a < b)
        (temps (dedupTable [SRow.mk 1700 [none], SRow.mk 1600 [some 5],
          SRow.mk 1700 [some 7]])) := by
  constructor
  · decide
  · decide

lemma argmaxIdx_lt_length : ∀ l : List ℕ, l ≠ [] → argmaxIdx l < l.length := by
  intro l
  induction l with
  | nil => intro h; exact absurd rfl h
  | cons x xs ih =>
    intro _
    cases xs with
    | nil => simp [argmaxIdx]
    | cons y ys =>
      simp only [argmaxIdx]
      by_cases h : x < (y :: ys).getD (argmaxIdx (y :: ys)) 0
      · rw [if_pos h]
        exact Nat.succ_lt_succ (ih (by simp))
      · rw [if_neg h]
        simp

lemma getD_le_argmaxIdx : ∀ (l : List ℕ) (i : ℕ), i < l.length →
    l.getD i 0 ≤ l.getD (argmaxIdx l) 0 := by
  intro l
  induction l with
  | nil => intro i h; simp at h
  | cons x xs ih =>
    intro i hi
    cases xs with
    | nil =>
      have hz : i = 0 := by simpa using hi
      subst hz
      simp [argmaxIdx]
    | cons y ys =>
      simp only [argmaxIdx]
      by_cases h : x < (y :: ys).getD (argmaxIdx (y :: ys)) 0
      · rw [if_pos h, List.getD_cons_succ]
        cases i with
        | zero => rw [List.getD_cons_zero]; exact le_of_lt h
        | succ k =>
          rw [List.getD_cons_succ]
          exact ih k (Nat.lt_of_succ_lt_succ hi)
      · rw [if_neg h, List.getD_cons_zero]
        have hxle := Nat.le_of_not_lt h
        cases i with
        | zero => rw [List.getD_cons_zero]
        | succ k =>
          rw [List.getD_cons_succ]
          exact le_trans (ih k (Nat.lt_of_succ_lt_succ hi)) hxle

lemma getD_lt_argmaxIdx : ∀ (l : List ℕ) (i : ℕ), i < argmaxIdx l →
    l.getD i 0 < l.getD (argmaxIdx l) 0 := by
  intro l
  induction l with
  | nil => intro i hi; simp [argmaxIdx] at hi
  | cons x xs ih =>
    intro i hi
    cases xs with
    | nil => simp [argmaxIdx] at hi
    | cons y ys =>
      simp only [argmaxIdx] at hi ⊢
      by_cases h : x < (y :: ys).getD (argmaxIdx (y :: ys)) 0
      · rw [if_pos h] at hi ⊢
        rw [List.getD_cons_succ]
        cases i with
        | zero => rw [List.getD_cons_zero]; exact h
        | succ k =>
          rw [List.getD_cons_succ]
          exact ih k (Nat.lt_of_succ_lt_succ hi)
      · rw [if_neg h] at hi
        exact absurd hi (Nat.not_lt_zero i)

lemma firstOcc_append_of_not_mem (v : ℚ) :
    ∀ (pre l : List ℚ), v ∉ pre → firstOcc v (pre ++ l) = pre.length + firstOcc v l := by
  intro pre
  induction pre with
  | nil => intro l _; simp
  | cons t ts ih =>
    intro l hv
    have ht : ¬ t = v := fun e => hv (e ▸ List.mem_cons_self t ts)
    simp only [List.cons_append, firstOcc, if_neg ht, List.append_eq]
    rw [ih l (fun hm => hv (List.mem_cons_of_mem t hm))]
    simp only [List.length_cons]
    omega

lemma mem_sortedVals (T : List ℚ) (v : ℚ) : v ∈ sortedVals T ↔ v ∈ T := by
  unfold sortedVals
  rw [(List.perm_insertionSort _ _).mem_iff, List.mem_dedup]

lemma nodup_sortedVals (T : List ℚ) : (sortedVals T).Nodup :=
  (List.perm_insertionSort _ _).nodup_iff.mpr (List.nodup_dedup T)

lemma sorted_lt_sortedVals (T : List ℚ) : (sortedVals T).Sorted (fun a b => a < b) :=
  (List.sorted_insertionSort _ _).lt_of_le (nodup_sortedVals T)

lemma exists_group_split (rows : List SRow) (hc : ContigDups (temps rows)) (v : ℚ)
    (hv : v ∈ temps rows) :
    ∃ A B C, rows = A ++ (B ++ C)
      ∧ temps B = List.replicate ((temps rows).count v) v
      ∧ v ∉ temps A ∧ v ∉ temps C
      ∧ firstOcc v (temps rows) = A.length := by
  obtain ⟨pre, post, hsplit⟩ := hc v hv
  have hcnt : 0 < (temps rows).count v := List.count_pos_iff.mpr hv
  obtain ⟨cnt, hcnteq⟩ : ∃ cnt, (temps rows).count v = cnt := ⟨_, rfl⟩
  rw [hcnteq] at hsplit hcnt ⊢
  have hnot : v ∉ pre ∧ v ∉ post := by
    have h1 : (temps rows).count v = pre.count v + cnt + post.count v := by
      conv_lhs => rw [hsplit]
      rw [List.count_append, List.count_append, List.count_replicate_self]
    have h2 : pre.count v = 0 ∧ post.count v = 0 := by omega
    exact ⟨List.count_eq_zero.mp h2.1, List.count_eq_zero.mp h2.2⟩
  have hsplit' : rows.map SRow.temp = pre ++ (List.replicate cnt v ++ post) := by
    rw [← List.append_assoc]
    exact hsplit
  obtain ⟨A, rest1, hrows1, hmapA, hmaprest⟩ := List.map_eq_append_iff.mp hsplit'
  obtain ⟨B, C, hrest, hmapB, hmapC⟩ := List.map_eq_append_iff.mp hmaprest
  refine ⟨A, B, C, ?_, hmapB, ?_, ?_, ?_⟩
  · rw [hrows1, hrest]
  · show v ∉ A.map SRow.temp
    rw [hmapA]; exact hnot.1
  · show v ∉ C.map SRow.temp
    rw [hmapC]; exact hnot.2
  · have hfo : firstOcc v (temps rows)
        = pre.length + firstOcc v (List.replicate cnt v ++ post) := by
      unfold temps
      rw [hsplit']
      exact firstOcc_append_of_not_mem v pre _ hnot.1
    have hrep : firstOcc v (List.replicate cnt v ++ post) = 0 := by
      cases hc2 : cnt with
      | zero => omega
      | succ n =>
        rw [List.replicate_succ, List.cons_append]
        simp [firstOcc]
    rw [hfo, hrep]
    have : A.length = pre.length := by
      have := congrArg List.length hmapA
      simpa using this
    omega

lemma pickRow_spec (rows : List SRow) (hc : ContigDups (temps rows)) (v : ℚ)
    (hv : v ∈ temps rows) :
    pickRow rows v = bestOf (rows.filter (fun r => decide (r.temp = v)))
    ∧ (pickRow rows v).temp = v
    ∧ rows.filter (fun r => decide (r.temp = v)) ≠ [] := by
  obtain ⟨A, B, C, hrows, hB, hvA, hvC, hstart⟩ := exists_group_split rows hc v hv
  have hcnt : 0 < (temps rows).count v := List.count_pos_iff.mpr hv
  have hlenB : B.length = (temps rows).count v := by
    have := congrArg List.length hB
    simpa [temps] using this
  have hBne : B ≠ [] := by
    intro h
    rw [h] at hlenB
    simp at hlenB
    omega
  have hmemB : ∀ r ∈ B, r.temp = v := by
    intro r hr
    have hmem : r.temp ∈ temps B := List.mem_map_of_mem SRow.temp hr
    rw [hB] at hmem
    exact List.eq_of_mem_replicate hmem
  have hslice : groupSlice rows v = B := by
    unfold groupSlice
    rw [hstart, ← hlenB]
    conv_lhs => rw [hrows]
    rw [List.drop_left A (B ++ C), List.take_left B C]
  have hfilter : rows.filter (fun r => decide (r.temp = v)) = B := by
    conv_lhs => rw [hrows]
    rw [List.filter_append, List.filter_append]
    have hfA : A.filter (fun r => decide (r.temp = v)) = [] := by
      apply List.filter_eq_nil_iff.mpr
      intro r hr
      simp only [decide_eq_true_eq]
      intro he
      exact hvA (he ▸ List.mem_map_of_mem SRow.temp hr)
    have hfC : C.filter (fun r => decide (r.temp = v)) = [] := by
      apply List.filter_eq_nil_iff.mpr
      intro r hr
      simp only [decide_eq_true_eq]
      intro he
      exact hvC (he ▸ List.mem_map_of_mem SRow.temp hr)
    have hfB : B.filter (fun r => decide (r.temp = v)) = B :=
      List.filter_eq_self.mpr (fun r hr => by simp [hmemB r hr])
    rw [hfA, hfB, hfC]
    simp
  have hjlt : argmaxIdx (B.map nonMissing) < B.length := by
    have hne : B.map nonMissing ≠ [] := by simpa using hBne
    have := argmaxIdx_lt_length (B.map nonMissing) hne
    simpa using this
  have hpick : pickRow rows v = B.getD (argmaxIdx (B.map nonMissing)) default := by
    unfold pickRow
    rw [hslice, hstart]
    conv_lhs => rw [hrows]
    rw [List.getD_append_right A (B ++ C) default _ (Nat.le_add_right A.length _),
        Nat.add_sub_cancel_left, List.getD_append B C default _ hjlt]
  refine ⟨?_, ?_, ?_⟩
  · rw [hpick, hfilter]
    rfl
  · rw [hpick, List.getD_eq_getElem _ _ hjlt]
    exact hmemB _ (List.getElem_mem hjlt)
  · rw [hfilter]
    exact hBne

lemma bestOf_mem (g : List SRow) (hg : g ≠ []) : bestOf g ∈ g := by
  unfold bestOf
  have hne : g.map nonMissing ≠ [] := by simpa using hg
  have hlt : argmaxIdx (g.map nonMissing) < g.length := by
    simpa using argmaxIdx_lt_length _ hne
  rw [List.getD_eq_getElem _ _ hlt]
  exact List.getElem_mem hlt

lemma getD_map_nonMissing (g : List SRow) (i : ℕ) (h : i < g.length) :
    (g.map nonMissing).getD i 0 = nonMissing (g[i]) := by
  rw [List.getD_eq_getElem _ _ (by simpa using h)]
  simp

lemma nonMissing_le_bestOf (g : List SRow) (hg : g ≠ []) :
    ∀ r ∈ g, nonMissing r ≤ nonMissing (bestOf g) := by
  intro r hr
  obtain ⟨i, hi, hgi⟩ := List.mem_iff_getElem.mp hr
  have hne : g.map nonMissing ≠ [] := by simpa using hg
  have hlt : argmaxIdx (g.map nonMissing) < g.length := by
    simpa using argmaxIdx_lt_length _ hne
  have h1 := getD_le_argmaxIdx (g.map nonMissing) i (by simpa using hi)
  rw [getD_map_nonMissing g i hi, getD_map_nonMissing g _ hlt] at h1
  unfold bestOf
  rw [List.getD_eq_getElem _ _ hlt, ← hgi]
  exact h1

lemma bestOf_first_tie (g : List SRow) :
    ∀ i, i < argmaxIdx (g.map nonMissing) →
      (g.map nonMissing).getD i 0 < nonMissing (bestOf g) := by
  intro i hi
  have hne : g.map nonMissing ≠ [] := by
    intro h
    rw [h] at hi
    simp [argmaxIdx] at hi
  have hlt : argmaxIdx (g.map nonMissing) < g.length := by
    simpa using argmaxIdx_lt_length _ hne
  have h1 := getD_lt_argmaxIdx (g.map nonMissing) i hi
  rw [getD_map_nonMissing g _ hlt] at h1
  unfold bestOf
  rw [List.getD_eq_getElem _ _ hlt]
  exact h1

lemma filter_map_pickRow (rows : List SRow) (hc : ContigDups (temps rows)) (v : ℚ) :
    ∀ vs : List ℚ, vs.Nodup → (∀ w ∈ vs, w ∈ temps rows) → v ∈ vs →
      (vs.map (pickRow rows)).filter (fun r => decide (r.temp = v))
        = [pickRow rows v] := by
  intro vs
  induction vs with
  | nil => intro _ _ hv'; cases hv'
  | cons w ws ih =>
    intro hnd hmem hv'
    rw [List.map_cons, List.filter_cons]
    by_cases hw : w = v
    · subst hw
      have htemp : (pickRow rows w).temp = w :=
        (pickRow_spec rows hc w (hmem w (List.mem_cons_self w ws))).2.1
      rw [if_pos (by simp [htemp])]
      have hrest : (ws.map (pickRow rows)).filter (fun r => decide (r.temp = w)) = [] := by
        apply List.filter_eq_nil_iff.mpr
        intro r hr
        obtain ⟨w', hw', hweq⟩ := List.mem_map.mp hr
        have htemp' : (pickRow rows w').temp = w' :=
          (pickRow_spec rows hc w' (hmem w' (List.mem_cons_of_mem w hw'))).2.1
        rw [← hweq]
        simp only [htemp', decide_eq_true_eq]
        exact fun he => (List.nodup_cons.mp hnd).1 (he ▸ hw')
      rw [hrest]
    · have htemp : (pickRow rows w).temp = w :=
        (pickRow_spec rows hc w (hmem w (List.mem_cons_self w ws))).2.1
      rw [if_neg (by simp [htemp, hw])]
      have hv'' : v ∈ ws := by
        rcases List.mem_cons.mp hv' with h | h
        · exact absurd h.symm hw
        · exact h
      exact ih (List.nodup_cons.mp hnd).2
        (fun w' h => hmem w' (List.mem_cons_of_mem w h)) hv''

/-- C3 (amended): in any table whose equal-temperature rows are contiguous
(as in ThermoCalc output, where duplicate rows mark a phase-vanishing point
inside an otherwise sorted sweep), the deduplicated table contains exactly
one row for each input temperature, namely the row of the group with the
maximum count of non-missing fields, ties resolved in favor of the first
occurrence within the group; for non-contiguous duplicates the slice
`data[ind[i]:ind[i]+cnt[i]]` is not the group and the property fails. -/
theorem c3_dedup_keeps_best (rows : List SRow) (hc : ContigDups (temps rows)) (v : ℚ)
    (hv : v ∈ temps rows) :
    (dedupTable rows).filter (fun r => decide (r.temp = v))
        = [bestOf (rows.filter (fun r => decide (r.temp = v)))]
    ∧ bestOf (rows.filter (fun r => decide (r.temp = v)))
        ∈ rows.filter (fun r => decide (r.temp = v))
    ∧ (∀ r ∈ rows.filter (fun r => decide (r.temp = v)),
        nonMissing r ≤ nonMissing (bestOf (rows.filter (fun r => decide (r.temp = v)))))
    ∧ (∀ i, i < argmaxIdx ((rows.filter (fun r => decide (r.temp = v))).map nonMissing) →
        ((rows.filter (fun r => decide (r.temp = v))).map nonMissing).getD i 0
          < nonMissing (bestOf (rows.filter (fun r => decide (r.temp = v))))) := by
  obtain ⟨hpickeq, hpicktemp, hgne⟩ := pickRow_spec rows hc v hv
  refine ⟨?_, bestOf_mem _ hgne, nonMissing_le_bestOf _ hgne, bestOf_first_tie _⟩
  unfold dedupTable
  rw [filter_map_pickRow rows hc v (sortedVals (temps rows)) (nodup_sortedVals _)
      (fun w hw => (mem_sortedVals _ _).mp hw) ((mem_sortedVals _ _).mpr hv)]
  rw [hpickeq]

/-- C9 (amended): for every input table whose equal-temperature rows are
contiguous — including otherwise-unsorted ones — the deduplicated table
lists its rows in strictly ascending temperature order (its temperature
column is exactly the sorted list of distinct input temperatures), so the
subsequent first-row/last-row selections operate on temperature order; for
non-contiguous duplicates the reordering can break, as the counterexample
shows. -/
theorem c9_dedup_sorted (rows : List SRow) (hc : ContigDups (temps rows)) :
    temps (dedupTable rows) = sortedVals (temps rows)
    ∧ List.Sorted (fun a b => a < b) (temps (dedupTable rows)) := by
  have hmap : temps (dedupTable rows) = sortedVals (temps rows) := by
    show (List.map (pickRow rows) (sortedVals (temps rows))).map SRow.temp = _
    rw [List.map_map]
    conv_rhs => rw [← List.map_id (sortedVals (temps rows))]
    apply List.map_congr_left
    intro w hw
    simp only [Function.comp_apply, id_eq]
    exact (pickRow_spec rows hc w ((mem_sortedVals _ _).mp hw)).2.1
  exact ⟨hmap, by rw [hmap]; exact sorted_lt_sortedVals _⟩

/-- Scenario A of the spec: a two-row duplicate group at `T = 1700`, the
first row with 3 missing fields, the second with 1. -/
def rowsScenarioA : List SRow :=
  [SRow.mk 1700 [none, none, none, some 1], SRow.mk 1700 [some 1, some 2, some 3, none]]

/-- Witness for `c3_dedup_keeps_best`: on scenario A the deduplicated table
keeps exactly the second row (1 missing field) for `T = 1700`. -/
theorem c3_dedup_keeps_best_witness :
    ContigDups (temps rowsScenarioA)
    ∧ (dedupTable rowsScenarioA).filter (fun r => decide (r.temp = 1700))
        = [bestOf (rowsScenarioA.filter (fun r => decide (r.temp = 1700)))] := by
  have hc : ContigDups (temps rowsScenarioA) := by
    intro v hv
    have hv' : v = 1700 := by
      have h : v ∈ [(1700 : ℚ), 1700] := hv
      rcases List.mem_cons.mp h with h1 | h1
      · exact h1
      · simpa using h1
    subst hv'
    exact ⟨[], [], by decide⟩
  exact ⟨hc, (c3_dedup_keeps_best rowsScenarioA hc 1700 (by decide)).1⟩

/-- An unsorted duplicate-free table used to witness the reordering. -/
def rowsUnsorted : List SRow := [SRow.mk 1700 [], SRow.mk 1600 []]

/-- Witness for `c9_dedup_sorted`: an unsorted table without duplicates is
reordered into ascending temperature order. -/
theorem c9_dedup_sorted_witness :
    ContigDups (temps rowsUnsorted)
    ∧ List.Sorted (fun a b => a < b) (temps (dedupTable rowsUnsorted)) := by
  have hc : ContigDups (temps rowsUnsorted) := by
    intro v hv
    have hv' : v = 1700 ∨ v = 1600 := by
      have h : v ∈ [(1700 : ℚ), 1600] := hv
      rcases List.mem_cons.mp h with h1 | h1
      · exact Or.inl h1
      · exact Or.inr (by simpa using h1)
    rcases hv' with rfl | rfl
    · exact ⟨[], [1600], by decide⟩
    · exact ⟨[1700], [], by decide⟩
  exact ⟨hc, (c9_dedup_sorted rowsUnsorted hc).2⟩
